import Mathlib

/-!
Verification of the CRC32C (Castagnoli) hardware path in
src/source/intel/intrin/crc32c_sse42_asm.c.

The file is a shallow embedding of that translation unit:

* machine integers are Nat, with explicit `% 2^w` / masking where the width
  matters;
* a byte buffer is a `List (Fin 256)`; a pointer into the buffer is an index,
  and the byte address alignment of the original pointer (the only thing the
  dispatcher ever looks at) is passed explicitly as `align`;
* the Intel CRC32B / CRC32Q instructions are embedded through their
  documented bit-level semantics over the bit-reflected Castagnoli
  polynomial, and PCLMULQDQ as carry-less (GF(2)) polynomial multiplication
  of two 64-bit operands;
* `while` loops of the C source become fuel-indexed structural recursions;
  the fuel argument is always initialized with a value that the loop can
  never exhaust (each iteration consumes at least one byte of the remaining
  input), so the embedded loop is extensionally the C loop.

Evaluation note: accumulator-threading loops guard their recursive call with
`forceThen` / `sfoldl` (see below), a semantic identity (proved by
`forceThen_eq` / `sfoldl_eq_foldl`) that forces the accumulator to a numeral
at every step so that closed instances of the functions can be evaluated by
`decide` within the kernel's stack budget.
-/

/-- A byte of the input buffer. -/
abbrev Byte := Fin 256

/-- The bit-reflected form of the Castagnoli generator polynomial
`0x1EDC6F41`; this is the constant the CRC32B/CRC32Q instructions divide by
in the reflected domain. -/
def P32 : Nat := 0x82F63B78

/-- 32-bit all-ones mask. -/
def M32 : Nat := 0xFFFFFFFF

/-- 32-bit bitwise complement, i.e. the C expression `~x` on `uint32_t`. -/
def compl32 (x : Nat) : Nat := x ^^^ M32

/-- One bit of the reflected CRC32C shift register: shift right, and
conditionally subtract (xor) the reflected polynomial. -/
def crcStep (c : Nat) : Nat := if c % 2 = 1 then (c / 2) ^^^ P32 else c / 2

/-- The CRC32B instruction: fold one byte into the 32-bit accumulator
(xor into the low bits, then run the shift register eight times). -/
def crcByte (c b : Nat) : Nat := crcStep^[8] (c ^^^ b)

/-- Sequential byte-at-a-time CRC accumulation over a list of byte values
(the semantics of a chain of CRC32B instructions, and the reference point
for every folded kernel). -/
def crcBytesN (c : Nat) (bs : List Nat) : Nat := bs.foldl crcByte c

/-- `crcBytesN` over a byte buffer. -/
def crcBytes (c : Nat) (bs : List Byte) : Nat := crcBytesN c (bs.map Fin.val)

/-- CRC accumulation over `n` zero bytes (used to state what the CLMUL
fold constants compute). -/
def crcZeros (c n : Nat) : Nat := crcBytesN c (List.replicate n 0)

/-- The eight bytes of a 64-bit value, least significant first (the order in
which the CRC32Q instruction consumes them). -/
def qwordBytes (v : Nat) : List Nat := (List.range 8).map fun i => (v >>> (8 * i)) % 256

/-- The CRC32Q instruction: fold a 64-bit source value into the 32-bit
accumulator, least significant byte first. -/
def crcQwordVal (c v : Nat) : Nat := crcBytesN c (qwordBytes v)

/-- Little-endian value of a byte list (how a memory operand is read). -/
def leBytes (bs : List Byte) : Nat := bs.foldr (fun b acc => b.val + 256 * acc) 0

/-- The 64-bit little-endian load at byte offset `o` of the buffer. -/
def le64At (buf : List Byte) (o : Nat) : Nat := leBytes ((buf.drop o).take 8)

/-- The sub-buffer of `n` bytes starting at offset `o`. -/
def seg (buf : List Byte) (o n : Nat) : List Byte := (buf.drop o).take n

/-- Strictness helper: force `n` to a numeral, then return `k`.  Semantically
the identity on `k` (`forceThen_eq`). -/
def forceThen {α : Type} [Inhabited α] (n : Nat) (k : α) : α :=
  bif Nat.beq n n then k else default

/-- `List.foldl` over `Nat` with a strict accumulator; extensionally equal to
`List.foldl` (`sfoldl_eq_foldl`). -/
def sfoldl (f : Nat → Nat → Nat) : Nat → List Nat → Nat
  | c, [] => c
  | c, b :: bs => bif Nat.beq (f c b) (f c b) then sfoldl f (f c b) bs else 0

/-- Strict version of `crcBytes`, used inside the embedded program text. -/
def crcBytesF (c : Nat) (bs : List Byte) : Nat := sfoldl crcByte c (bs.map Fin.val)

/-- `crc32q off(%[in]), acc` — a CRC32Q instruction with a memory operand. -/
def crcQmem (buf : List Byte) (o c : Nat) : Nat := crcQwordVal c (le64At buf o)

/-- A chain of CRC32Q memory-operand instructions at the given offsets. -/
def crcQwordsAt (buf : List Byte) (c : Nat) (offs : List Nat) : Nat :=
  sfoldl (fun a o => crcQmem buf o a) c offs

/-- Carry-less (polynomial, GF(2)) product accumulator over the low `k` bits
of `b`. -/
def clmulAux (a b : Nat) : Nat → Nat
  | 0 => 0
  | k + 1 => (if b.testBit k then a <<< k else 0) ^^^ clmulAux a b k

/-- The PCLMULQDQ primitive: carry-less product of two 64-bit operands
(result fits in 127 bits). -/
def clmul (a b : Nat) : Nat := clmulAux a b 64

/-!
## The three SSE42 stripe-folder kernels (lines 39-280 of the source)

Each kernel splits its fixed-size block into three stripes, runs an
independent CRC32Q accumulator chain over each stripe (`rcx`, `r11`, `r10`
in the assembly; `r11` and `r10` start at zero), and recombines the three
partial CRCs with the `FOLD_K1K2` macro.
-/

/-- The `FOLD_K1K2(K1, K2)` assembly macro (lines 39-55): multiply `crc0` by
`K1` and `crc1` by `K2` carry-lessly, fold each 64-bit product through a
CRC32Q from a zero accumulator, then xor with `crc2`:
`ecx = crc32q(0, crc0*K1) ^ crc2 ^ crc32q(0, crc1*K2)`. -/
def fold_k1k2 (K1 K2 crc0 crc1 crc2 : Nat) : Nat :=
  (crcQwordVal 0 (clmul crc0 K1) ^^^ crc2) ^^^ crcQwordVal 0 (clmul crc1 K2)

/-- Qword offsets of the first stripe of the 256-byte kernel (11 CRC32Q
instructions into `rcx`, lines 70-110). -/
def stripe256c0 : List Nat := [0, 8, 16, 24, 32, 40, 48, 56, 64, 72, 80]

/-- Qword offsets of the second stripe (11 CRC32Q instructions into `r11`,
lines 71-111; the comment on line 111 mislabels the last one as crc2 but the
register is `r11`). -/
def stripe256c1 : List Nat := [88, 96, 104, 112, 120, 128, 136, 144, 152, 160, 168]

/-- Qword offsets of the third stripe (10 CRC32Q instructions into `r10`,
lines 72-108). -/
def stripe256c2 : List Nat := [176, 184, 192, 200, 208, 216, 224, 232, 240, 248]

/-- Lines 65-124: the 256-byte stripe kernel.  `crc0` starts from the
incoming crc, `crc1` and `crc2` from zero; the magic constants are
`0x1b3d8f29` and `0x39d3b296`. -/
def s_crc32c_sse42_clmul_256 (input : List Byte) (crc : Nat) : Nat :=
  fold_k1k2 0x1b3d8f29 0x39d3b296
    (crcQwordsAt input crc stripe256c0)
    (crcQwordsAt input 0 stripe256c1)
    (crcQwordsAt input 0 stripe256c2)

/-- The eight qword offsets `base+0, base+8, ..., base+56` touched by one
stripe in one 64-byte loop iteration of the 1024- and 3072-byte kernels. -/
def qoffs8 (base : Nat) : List Nat :=
  [base, base + 8, base + 16, base + 24, base + 32, base + 40, base + 48, base + 56]

/-- The shared loop shape of the 1024- and 3072-byte kernels: `k` iterations,
each consuming 64 bytes per stripe (eight CRC32Q per accumulator at stripe
displacements `0`, `d1`, `d2` from the moving pointer `pos`), then advancing
the pointer by 64.  Returns the final pointer and the three accumulators. -/
def stripe3Loop (input : List Byte) (d1 d2 : Nat) :
    Nat → Nat → Nat → Nat → Nat → Nat × Nat × Nat × Nat
  | pos, 0, c0, c1, c2 => (pos, c0, c1, c2)
  | pos, k + 1, c0, c1, c2 =>
    let c0n := crcQwordsAt input c0 (qoffs8 pos)
    let c1n := crcQwordsAt input c1 (qoffs8 (pos + d1))
    let c2n := crcQwordsAt input c2 (qoffs8 (pos + d2))
    forceThen c0n (forceThen c1n (forceThen c2n
      (stripe3Loop input d1 d2 (pos + 64) k c0n c1n c2n)))

/-- Lines 134-206: the 1024-byte stripe kernel; five loop iterations at
stripe displacements 344 and 680, then a tail of 3 + 2 + 3 CRC32Q
instructions, then `FOLD_K1K2($0xe417f38a, $0x8f158014)`. -/
def s_crc32c_sse42_clmul_1024 (input : List Byte) (crc : Nat) : Nat :=
  let r := stripe3Loop input 344 680 0 5 crc 0 0
  let pos := r.1
  let c0 := crcQwordsAt input r.2.1 [pos, pos + 8, pos + 16]
  let c1 := crcQwordsAt input r.2.2.1 [pos + 344, pos + 352]
  let c2 := crcQwordsAt input r.2.2.2 [pos + 680, pos + 688, pos + 696]
  fold_k1k2 0xe417f38a 0x8f158014 c0 c1 c2

/-- Lines 216-280: the 3072-byte stripe kernel; sixteen loop iterations at
stripe displacements 1024 and 2048, no tail, then
`FOLD_K1K2($0xa51b6135, $0x170076fa)`. -/
def s_crc32c_sse42_clmul_3072 (input : List Byte) (crc : Nat) : Nat :=
  let r := stripe3Loop input 1024 2048 0 16 crc 0 0
  fold_k1k2 0xa51b6135 0x170076fa r.2.1 r.2.2.1 r.2.2.2

/-!
## The AVX512 wide-vector folder `crc32c_avx512` (lines 289-453)

512-bit vector registers are embedded as `Nat < 2^512`, 128-bit registers as
`Nat < 2^128`; lane `i` of a register occupies bits `128*i .. 128*i+127`.
-/

/-- 128-bit lane `i` of a 512-bit register. -/
def lane128 (x i : Nat) : Nat := (x >>> (128 * i)) % 2 ^ 128

/-- Low 64-bit half of a 128-bit lane. -/
def lo64 (x : Nat) : Nat := x % 2 ^ 64

/-- High 64-bit half of a 128-bit lane. -/
def hi64 (x : Nat) : Nat := (x >>> 64) % 2 ^ 64

/-- `_mm_clmulepi64_si128(a, b, imm)`: select the low or high 64-bit half of
each operand by bits 0 and 4 of the immediate, and multiply carry-lessly. -/
def clmul128 (a b imm : Nat) : Nat :=
  clmul (if imm % 2 = 1 then hi64 a else lo64 a)
        (if (imm >>> 4) % 2 = 1 then hi64 b else lo64 b)

/-- `_mm512_clmulepi64_epi128(a, b, imm)`: `clmul128` on each of the four
128-bit lanes independently. -/
def clmul512 (a b imm : Nat) : Nat :=
  (clmul128 (lane128 a 0) (lane128 b 0) imm) ^^^
  (clmul128 (lane128 a 1) (lane128 b 1) imm <<< 128) ^^^
  (clmul128 (lane128 a 2) (lane128 b 2) imm <<< 256) ^^^
  (clmul128 (lane128 a 3) (lane128 b 3) imm <<< 384)

/-- `_mm512_ternarylogic_epi64(a, b, c, 0x96)` is the three-way xor. -/
def xor3 (a b c : Nat) : Nat := a ^^^ b ^^^ c

/-- Value of a little-endian array of 64-bit words (the in-memory constant
tables `k1k2`, `k3k4`, `k5k6`, `poly`). -/
def qwordsVal (l : List Nat) : Nat := l.foldr (fun q acc => q + acc * 2 ^ 64) 0

/-- Line 303: the `k1k2` table (the same constant pair in all four lanes). -/
def k1k2 : Nat :=
  qwordsVal [0xdcb17aa4, 0xb9e02b86, 0xdcb17aa4, 0xb9e02b86,
             0xdcb17aa4, 0xb9e02b86, 0xdcb17aa4, 0xb9e02b86]

/-- Line 307: the `k3k4` table. -/
def k3k4 : Nat :=
  qwordsVal [0x740eef02, 0x9e4addf8, 0x740eef02, 0x9e4addf8,
             0x740eef02, 0x9e4addf8, 0x740eef02, 0x9e4addf8]

/-- Line 311: the `k5k6` table. -/
def k5k6 : Nat := qwordsVal [0xf20c0dfe, 0x14cd00bd6]

/-- Line 312: the `k7k8` table; only its low qword is ever loaded
(`_mm_loadl_epi64`). -/
def k7k8 : Nat := 0xdd45aab8

/-- Line 313: the Barrett reduction constants. -/
def avxPoly : Nat := qwordsVal [0x105ec76f1, 0xdea713f1]

/-- Line 428: `_mm_setr_epi32(~0, 0, ~0, 0)` — a mask keeping dwords 0
and 2 of a 128-bit register. -/
def dwordMask02 : Nat := 0xFFFFFFFF + (0xFFFFFFFF <<< 64)

/-- `_mm512_loadu_si512` at byte offset `o`: little-endian value of the next
64 bytes. -/
def loadu512 (buf : List Byte) (o : Nat) : Nat := leBytes ((buf.drop o).take 64)

/-- Lines 336-361: the main four-lane 256-bytes-per-iteration folding loop.
State is `(x1, x2, x3, x4)`; returns the final state together with the
remaining input and length.  `x0` holds the `k1k2` constants.  The fuel is
initialized to a value the loop cannot exhaust (it consumes 256 of `length`
per iteration). -/
def avx512Loop256 (x0 : Nat) :
    Nat → List Byte → Nat → Nat × Nat × Nat × Nat → (Nat × Nat × Nat × Nat) × List Byte × Nat
  | 0, input, length, s => (s, input, length)
  | fuel + 1, input, length, s =>
    if 256 ≤ length then
      let x5 := clmul512 s.1 x0 0x00
      let x6 := clmul512 s.2.1 x0 0x00
      let x7 := clmul512 s.2.2.1 x0 0x00
      let x8 := clmul512 s.2.2.2 x0 0x00
      let x1 := clmul512 s.1 x0 0x11
      let x2 := clmul512 s.2.1 x0 0x11
      let x3 := clmul512 s.2.2.1 x0 0x11
      let x4 := clmul512 s.2.2.2 x0 0x11
      let y5 := loadu512 input 0x00
      let y6 := loadu512 input 0x40
      let y7 := loadu512 input 0x80
      let y8 := loadu512 input 0xC0
      let x1n := xor3 x1 x5 y5
      let x2n := xor3 x2 x6 y6
      let x3n := xor3 x3 x7 y7
      let x4n := xor3 x4 x8 y8
      forceThen x1n (forceThen x2n (forceThen x3n (forceThen x4n
        (avx512Loop256 x0 fuel (input.drop 256) (length - 256) (x1n, x2n, x3n, x4n)))))
    else (s, input, length)

/-- Lines 383-393: the single-lane 64-bytes-per-iteration folding loop.
`x0` holds the `k3k4` constants. -/
def avx512Loop64 (x0 : Nat) :
    Nat → List Byte → Nat → Nat → Nat × List Byte × Nat
  | 0, input, length, x1 => (x1, input, length)
  | fuel + 1, input, length, x1 =>
    if 64 ≤ length then
      let x2 := loadu512 input 0
      let x5 := clmul512 x1 x0 0x00
      let x1a := clmul512 x1 x0 0x11
      let x1n := xor3 x1a x2 x5
      forceThen x1n (avx512Loop64 x0 fuel (input.drop 64) (length - 64) x1n)
    else (x1, input, length)

/-- Lines 366-378: fold the four 512-bit lanes `x1..x4` into one, using the
`k3k4` constants in `x0`. -/
def avx512Fold4 (x0 x1 x2 x3 x4 : Nat) : Nat :=
  let x5 := clmul512 x1 x0 0x00
  let x1a := clmul512 x1 x0 0x11
  let x1b := xor3 x1a x2 x5
  let x5b := clmul512 x1b x0 0x00
  let x1c := clmul512 x1b x0 0x11
  let x1d := xor3 x1c x3 x5b
  let x5c := clmul512 x1d x0 0x00
  let x1e := clmul512 x1d x0 0x11
  xor3 x1e x4 x5c

/-- Lines 395-452: reduce the remaining 512-bit accumulator `x1` to the
final 32-bit CRC (512 to 384 to 256 to 128 bits with `k5k6`, 128 to 64 bits
with `k7k8`, then Barrett reduction and extraction of dword 1). -/
def avx512Reduce (x1 : Nat) : Nat :=
  let a0 := k5k6
  let a1 := lane128 x1 0
  let a2 := lane128 x1 1
  let a3 := clmul128 a1 a0 0x00
  let a1b := clmul128 a1 a0 0x11
  let a1c := xor3 a1b a3 a2
  let a2b := lane128 x1 2
  let a3b := clmul128 a1c a0 0x00
  let a1d := clmul128 a1c a0 0x11
  let a1e := xor3 a1d a3b a2b
  let a2c := lane128 x1 3
  let a3c := clmul128 a1e a0 0x00
  let a1f := clmul128 a1e a0 0x11
  let a1g := xor3 a1f a3c a2c
  let a2d := clmul128 a1g a0 0x10
  let a1h := a1g >>> 64
  let a1i := a1h ^^^ a2d
  let a0b := k7k8
  let a2e := a1i >>> 32
  let a1j := a1i &&& dwordMask02
  let a1k := clmul128 a1j a0b 0x00
  let a1l := a1k ^^^ a2e
  let a2f := a1l &&& dwordMask02
  let a2g := clmul128 a2f avxPoly 0x10
  let a2h := a2g &&& dwordMask02
  let a2i := clmul128 a2h avxPoly 0x00
  let a1m := a1l ^^^ a2i
  (a1m >>> 32) % 2 ^ 32

/-- Lines 289-453: `crc32c_avx512(input, length, crc)`.  Loads the first 256
bytes into four lanes, merges the incoming crc into the low dword of the
first lane, folds 256-byte chunks, folds the four lanes to one, folds
64-byte chunks, and reduces to 32 bits.  Only the first
`length - length % 64` bytes are ever read. -/
def crc32c_avx512 (input : List Byte) (length crc : Nat) : Nat :=
  let x1 := loadu512 input 0x00 ^^^ crc
  let x2 := loadu512 input 0x40
  let x3 := loadu512 input 0x80
  let x4 := loadu512 input 0xC0
  let r := avx512Loop256 k1k2 length (input.drop 256) (length - 256) (x1, x2, x3, x4)
  let x1f := avx512Fold4 k3k4 r.1.1 r.1.2.1 r.1.2.2.1 r.1.2.2.2
  let r2 := avx512Loop64 k3k4 r.2.2 r.2.1 r.2.2 x1f
  avx512Reduce r2.1

/-!
## Capability detection (lines 455-477) and dispatcher (lines 467-556)
-/

/-- The answers of the `aws_cpu_has_feature` probe for the three features the
file queries (an external collaborator; its results are opaque booleans). -/
structure CpuFeatures where
  clmul : Bool
  sse42 : Bool
  avx512 : Bool
deriving DecidableEq, Fintype

/-- The four static booleans of lines 455-458. -/
structure DetectionState where
  detection_performed : Bool
  detected_clmul : Bool
  detected_sse42 : Bool
  detected_avx512 : Bool
deriving DecidableEq, Fintype

/-- The initializers of lines 455-458: everything false. -/
def initialDetectionState : DetectionState := ⟨false, false, false, false⟩

/-- Lines 469-477: the effect of one call on the static detection state:
if detection was not performed yet, fill the three feature flags from the
CPU probe and set `detection_performed`; otherwise leave the state alone. -/
def detectStep (cpu : CpuFeatures) (s : DetectionState) : DetectionState :=
  if s.detection_performed then s else ⟨true, cpu.clmul, cpu.sse42, cpu.avx512⟩

/-- Fuel-indexed form of the quad-word drain loop (lines 542-547): while at
least 8 bytes remain, fold the next 8 bytes with one CRC32Q and advance. -/
def drainQAux : Nat → List Byte → Nat → Nat × List Byte
  | 0, input, crc => (crc, input)
  | fuel + 1, input, crc =>
    if 8 ≤ input.length then
      let c := crcQwordVal crc (le64At input 0)
      forceThen c (drainQAux fuel (input.drop 8) c)
    else (crc, input)

/-- Lines 542-555: the terminal scalar drain — the CRC32Q loop over
remaining 8-byte chunks, the CRC32B loop over remaining single bytes, then
`return ~crc`. -/
def hwTail (input : List Byte) (crc : Nat) : Nat :=
  let r := drainQAux input.length input crc
  compl32 (crcBytesF r.1 r.2)

/-- Fuel-indexed form of the three SSE42 block loops (lines 520-537): while
at least `N` bytes remain, run the `N`-byte kernel and advance by `N`;
returns the updated crc and the remaining input. -/
def blockLoop (kern : List Byte → Nat → Nat) (N : Nat) :
    Nat → List Byte → Nat → Nat × List Byte
  | 0, input, crc => (crc, input)
  | fuel + 1, input, crc =>
    if N ≤ input.length then
      let c := kern input crc
      forceThen c (blockLoop kern N fuel (input.drop N) c)
    else (crc, input)

/-- Lines 467-556: `aws_checksums_crc32c_hw` after capability detection, as
a function of the detected flags.  `align` is the byte address of `input`
modulo 8 (the source reads `(unsigned long)input & 0x7`); the `length`
parameter of the C function is the length of the `input` list.

Control flow mirrors the source:
1. complement the incoming crc;
2. `length < 8`: CRC32B every byte and return the complement immediately;
3. otherwise drain `(8 - align % 8) % 8` leading bytes with CRC32B;
4. if clmul is detected: if avx512 is detected and at least 256 bytes
   remain, compute `chunk_size = length & ~63` (written here as
   `64 * (length / 64)`), set `crc = ~crc32c_avx512(input, length, crc)`,
   and return `crc` if nothing remains, otherwise advance by `chunk_size`
   and fall into the drain; else if sse42 is detected, run the 3072-, 1024-
   and 256-byte kernel loops;
5. drain what is left (`hwTail`, which ends in `return ~crc`). -/
def aws_checksums_crc32c_hw (st : DetectionState) (align : Nat)
    (input : List Byte) (previousCrc32 : Nat) : Nat :=
  let crc := compl32 previousCrc32
  if input.length < 8 then
    compl32 (crcBytesF crc input)
  else
    let input_alignment := align % 8
    let leading := (8 - input_alignment) % 8
    let crc1 := crcBytesF crc (input.take leading)
    let input1 := input.drop leading
    if st.detected_clmul then
      if st.detected_avx512 then
        if 256 ≤ input1.length then
          let length := input1.length
          let chunk_size := 64 * (length / 64)
          let crc2 := compl32 (crc32c_avx512 input1 length crc1)
          if length - chunk_size = 0 then crc2
          else hwTail (input1.drop chunk_size) crc2
        else hwTail input1 crc1
      else if st.detected_sse42 then
        let r3 := blockLoop s_crc32c_sse42_clmul_3072 3072 input1.length input1 crc1
        let r2 := blockLoop s_crc32c_sse42_clmul_1024 1024 r3.2.length r3.2 r3.1
        let r1 := blockLoop s_crc32c_sse42_clmul_256 256 r2.2.length r2.2 r2.1
        hwTail r1.2 r1.1
      else hwTail input1 crc1
    else hwTail input1 crc1

/-- The stateful entry point: one call performs lazy capability detection
(lines 469-477) and then computes with the detected flags; it returns the
checksum together with the static state left behind for the next call. -/
def aws_checksums_crc32c_hw_call (cpu : CpuFeatures) (s : DetectionState)
    (align : Nat) (input : List Byte) (previousCrc32 : Nat) : Nat × DetectionState :=
  let s2 := detectStep cpu s
  (aws_checksums_crc32c_hw s2 align input previousCrc32, s2)

/-- Modelled from the spec: the software CRC32C fallback
`aws_checksums_crc32c_sw` lives outside this translation unit (the spec's
"software oracle" / "software fallback" collaborator, section 6: a table
driven implementation of the standard reflected CRC32C over polynomial
`0x1EDC6F41` with the complement-on-entry / complement-on-exit convention,
"guaranteed to produce results bit-identical to every hardware path").
`crcBytes` is exactly that bit-reflected polynomial division, so the oracle
is: complement the seed, fold every byte sequentially, complement again. -/
def aws_checksums_crc32c_sw (input : List Byte) (previousCrc32 : Nat) : Nat :=
  compl32 (crcBytes (compl32 previousCrc32) input)

/-!
## Concrete inputs used by witnesses and counterexamples
-/

/-- A test buffer: `n` bytes with byte `i` equal to `i % 256`. -/
def mkBuf (n : Nat) : List Byte :=
  (List.range n).map fun i => (⟨i % 256, Nat.mod_lt i (by omega)⟩ : Byte)

/-- The ASCII bytes of the string of digits 1 to 9, the standard CRC check
vector. -/
def buf123456789 : List Byte :=
  [⟨0x31, by omega⟩, ⟨0x32, by omega⟩, ⟨0x33, by omega⟩, ⟨0x34, by omega⟩,
   ⟨0x35, by omega⟩, ⟨0x36, by omega⟩, ⟨0x37, by omega⟩, ⟨0x38, by omega⟩,
   ⟨0x39, by omega⟩]

/-- A detection state with every feature present (clmul, sse42, avx512). -/
def capsAll : DetectionState := ⟨true, true, true, true⟩

/-- A detection state with clmul and sse42 but no avx512. -/
def capsSse : DetectionState := ⟨true, true, true, false⟩

/-- A detection state with no acceleration features at all. -/
def capsNone : DetectionState := ⟨true, false, false, false⟩

/-- The prop that the fold constant `K` advances a 32-bit crc across `n`
zero bytes: `crc32q(0, clmul(c, K)) = crcZeros c n` for every 32-bit `c`.
This is the correctness statement of each magic constant of the source. -/
def foldConstOk (K n : Nat) : Prop :=
  ∀ c, c < 2 ^ 32 → crcQwordVal 0 (clmul c K) = crcZeros c n

/-!
## Theorems

### Strictness helpers are identities
-/

theorem forceThen_eq {α : Type} [Inhabited α] (n : Nat) (k : α) : forceThen n k = k := by
  simp [forceThen, Nat.beq_refl]

theorem sfoldl_eq_foldl (f : Nat → Nat → Nat) (c : Nat) (bs : List Nat) :
    sfoldl f c bs = bs.foldl f c := by
  induction bs generalizing c with
  | nil => rfl
  | cons b bs ih => simp [sfoldl, Nat.beq_refl, ih]

theorem crcBytesF_eq (c : Nat) (bs : List Byte) : crcBytesF c bs = crcBytes c bs := by
  rw [crcBytesF, sfoldl_eq_foldl, crcBytes, crcBytesN]

theorem crcQwordsAt_eq (buf : List Byte) (c : Nat) (offs : List Nat) :
    crcQwordsAt buf c offs = offs.foldl (fun a o => crcQmem buf o a) c := by
  rw [crcQwordsAt, sfoldl_eq_foldl]

/-!
### GF(2)-linearity of the CRC step, byte fold and carry-less product
-/

theorem xor_left_comm (a b c : Nat) : a ^^^ (b ^^^ c) = b ^^^ (a ^^^ c) := by
  rw [← Nat.xor_assoc, Nat.xor_comm a b, Nat.xor_assoc]

theorem xor_xor_self (p x : Nat) : p ^^^ (p ^^^ x) = x := by
  rw [← Nat.xor_assoc, Nat.xor_self, Nat.zero_xor]

theorem crcStep_xor (a b : Nat) : crcStep (a ^^^ b) = crcStep a ^^^ crcStep b := by
  have hdiv : (a ^^^ b) / 2 = a / 2 ^^^ b / 2 := by
    apply Nat.eq_of_testBit_eq
    intro i
    simp only [← Nat.testBit_succ, Nat.testBit_xor]
  have h0 : (a ^^^ b).testBit 0 = ((a.testBit 0).xor (b.testBit 0)) := Nat.testBit_xor a b 0
  rw [Nat.testBit_zero, Nat.testBit_zero, Nat.testBit_zero] at h0
  rcases Nat.mod_two_eq_zero_or_one a with ha | ha <;>
    rcases Nat.mod_two_eq_zero_or_one b with hb | hb <;>
      [skip; skip; skip; skip] <;>
      · rw [ha, hb] at h0
        simp only [decide_eq_true_eq, Bool.xor_false, Bool.xor_true, Bool.false_xor,
          Bool.true_xor, decide_eq_decide, Nat.reduceEqDiff, decide_eq_false_iff_not,
          Bool.not_eq_true'] at h0
        simp [crcStep, ha, hb, h0, hdiv, Nat.xor_assoc, Nat.xor_comm, xor_left_comm,
          xor_xor_self]
        all_goals omega

theorem crcStep_iter_xor (n a b : Nat) :
    crcStep^[n] (a ^^^ b) = crcStep^[n] a ^^^ crcStep^[n] b := by
  induction n with
  | zero => rfl
  | succ n ih => simp [Function.iterate_succ_apply', ih, crcStep_xor]

theorem crcByte_xor (a b x y : Nat) :
    crcByte (a ^^^ b) (x ^^^ y) = crcByte a x ^^^ crcByte b y := by
  have h : (a ^^^ b) ^^^ (x ^^^ y) = (a ^^^ x) ^^^ (b ^^^ y) := by
    simp [Nat.xor_assoc, Nat.xor_comm, xor_left_comm]
  rw [crcByte, h, crcStep_iter_xor, crcByte, crcByte]

theorem crcBytesN_append (c : Nat) (M N : List Nat) :
    crcBytesN c (M ++ N) = crcBytesN (crcBytesN c M) N := by
  simp [crcBytesN, List.foldl_append]

theorem crcZeros_add (c m n : Nat) :
    crcZeros c (m + n) = crcZeros (crcZeros c m) n := by
  rw [crcZeros, List.replicate_add, crcBytesN_append, crcZeros, crcZeros]

theorem crcBytesN_xor_split (M : List Nat) (c d : Nat) :
    crcBytesN (c ^^^ d) M = crcZeros c M.length ^^^ crcBytesN d M := by
  induction M generalizing c d with
  | nil => simp [crcBytesN, crcZeros]
  | cons b M ih =>
    have hb : crcByte (c ^^^ d) b = crcByte c 0 ^^^ crcByte d b := by
      have : (b : Nat) = 0 ^^^ b := by simp
      rw [this, crcByte_xor, ← this]
    have hz : crcZeros c (M.length + 1) = crcZeros (crcByte c 0) M.length := by
      rw [crcZeros, crcZeros, Nat.add_comm, List.replicate_add]
      simp [crcBytesN_append, crcBytesN]
    simp only [crcBytesN, List.foldl_cons, List.length_cons]
    rw [hb]
    simpa [crcBytesN, hz] using ih (crcByte c 0) (crcByte d b)

theorem crcZeros_xor (a b n : Nat) :
    crcZeros (a ^^^ b) n = crcZeros a n ^^^ crcZeros b n := by
  have h := crcBytesN_xor_split (List.replicate n 0) a b
  simpa [crcZeros] using h

theorem crcByte_zero_zero : crcByte 0 0 = 0 := by decide

theorem crcZeros_zero (n : Nat) : crcZeros 0 n = 0 := by
  induction n with
  | zero => rfl
  | succ n ih =>
    rw [crcZeros, List.replicate_succ, crcBytesN, List.foldl_cons, crcByte_zero_zero]
    exact ih

theorem crcBytesN_decomp (M : List Nat) (c : Nat) :
    crcBytesN c M = crcZeros c M.length ^^^ crcBytesN 0 M := by
  have h := crcBytesN_xor_split M c 0
  simpa using h

theorem crcBytesN_zip_xor (M : List Nat) :
    ∀ (N : List Nat) (a b : Nat), M.length = N.length →
      crcBytesN (a ^^^ b) (List.zipWith (· ^^^ ·) M N) = crcBytesN a M ^^^ crcBytesN b N := by
  induction M with
  | nil =>
    intro N a b h
    rw [List.length_nil] at h
    rw [(List.length_eq_zero.mp h.symm)]
    simp [crcBytesN]
  | cons x M ih =>
    intro N a b h
    cases N with
    | nil => simp at h
    | cons y N =>
      simp only [List.zipWith_cons_cons, crcBytesN, List.foldl_cons]
      rw [crcByte_xor]
      exact ih N _ _ (by simpa using h)

theorem shiftRight_mod_two_pow_xor (u v k m : Nat) :
    ((u ^^^ v) >>> k) % 2 ^ m = ((u >>> k) % 2 ^ m) ^^^ ((v >>> k) % 2 ^ m) := by
  apply Nat.eq_of_testBit_eq
  intro i
  by_cases h : i < m <;>
    simp [Nat.testBit_mod_two_pow, Nat.testBit_shiftRight, Nat.testBit_xor, h]

theorem byteOf_xor (u v k : Nat) :
    ((u ^^^ v) >>> k) % 256 = ((u >>> k) % 256) ^^^ ((v >>> k) % 256) := by
  simpa using shiftRight_mod_two_pow_xor u v k 8

theorem list_range_eight : List.range 8 = [0, 1, 2, 3, 4, 5, 6, 7] := by decide

theorem qwordBytes_xor (u v : Nat) :
    qwordBytes (u ^^^ v) = List.zipWith (· ^^^ ·) (qwordBytes u) (qwordBytes v) := by
  simp [qwordBytes, list_range_eight, byteOf_xor]

theorem qwordBytes_length (v : Nat) : (qwordBytes v).length = 8 := by
  simp [qwordBytes]

theorem crcQwordVal_xor (a b u v : Nat) :
    crcQwordVal (a ^^^ b) (u ^^^ v) = crcQwordVal a u ^^^ crcQwordVal b v := by
  rw [crcQwordVal, qwordBytes_xor, crcBytesN_zip_xor _ _ _ _ (by simp [qwordBytes_length]),
    crcQwordVal, crcQwordVal]

theorem xor_shiftLeft (a b k : Nat) : (a ^^^ b) <<< k = a <<< k ^^^ b <<< k := by
  apply Nat.eq_of_testBit_eq
  intro j
  by_cases h : k ≤ j <;> simp [Nat.testBit_shiftLeft, Nat.testBit_xor, h]

theorem clmulAux_xor (a b K : Nat) :
    ∀ f, clmulAux (a ^^^ b) K f = clmulAux a K f ^^^ clmulAux b K f := by
  intro f
  induction f with
  | zero => simp [clmulAux]
  | succ k ih =>
    by_cases h : K.testBit k <;>
      simp [clmulAux, h, ih, xor_shiftLeft, Nat.xor_assoc, Nat.xor_comm, xor_left_comm]

theorem clmul_xor (a b K : Nat) : clmul (a ^^^ b) K = clmul a K ^^^ clmul b K :=
  clmulAux_xor a b K 64

/-!
### 32-bit boundedness of the CRC accumulator
-/

theorem crcStep_lt (c : Nat) (h : c < 2 ^ 32) : crcStep c < 2 ^ 32 := by
  have hd : c / 2 < 2 ^ 32 := Nat.lt_of_le_of_lt (Nat.div_le_self c 2) h
  unfold crcStep
  split
  · exact Nat.xor_lt_two_pow hd (by norm_num [P32])
  · exact hd

theorem crcStep_iter_lt (n c : Nat) (h : c < 2 ^ 32) : crcStep^[n] c < 2 ^ 32 := by
  induction n with
  | zero => exact h
  | succ n ih => rw [Function.iterate_succ_apply']; exact crcStep_lt _ ih

theorem crcByte_lt (c b : Nat) (hc : c < 2 ^ 32) (hb : b < 256) : crcByte c b < 2 ^ 32 :=
  crcStep_iter_lt 8 _ (Nat.xor_lt_two_pow hc (by omega))

theorem crcBytesN_lt (M : List Nat) (c : Nat) (hc : c < 2 ^ 32)
    (hM : ∀ b ∈ M, b < 256) : crcBytesN c M < 2 ^ 32 := by
  induction M generalizing c with
  | nil => exact hc
  | cons b M ih =>
    rw [crcBytesN, List.foldl_cons]
    exact ih _ (crcByte_lt _ _ hc (hM b (List.mem_cons_self b M)))
      fun x hx => hM x (List.mem_cons_of_mem _ hx)

theorem crcZeros_lt (c n : Nat) (hc : c < 2 ^ 32) : crcZeros c n < 2 ^ 32 :=
  crcBytesN_lt _ _ hc fun b hb => by
    rw [List.eq_of_mem_replicate hb]; omega

theorem crcQwordVal_lt (c v : Nat) (hc : c < 2 ^ 32) : crcQwordVal c v < 2 ^ 32 :=
  crcBytesN_lt _ _ hc fun b hb => by
    rw [qwordBytes] at hb
    obtain ⟨i, _, rfl⟩ := List.mem_map.mp hb
    exact Nat.mod_lt _ (by omega)

theorem crcBytes_lt (bs : List Byte) (c : Nat) (hc : c < 2 ^ 32) : crcBytes c bs < 2 ^ 32 :=
  crcBytesN_lt _ _ hc fun b hb => by
    obtain ⟨x, _, rfl⟩ := List.mem_map.mp hb
    exact x.isLt

/-!
### Extension of GF(2)-additive maps from the 32 basis bits
-/

theorem two_pow_add_xor (k r : Nat) (h : r < 2 ^ k) : 2 ^ k + r = 2 ^ k ^^^ r := by
  apply Nat.eq_of_testBit_eq
  intro j
  rcases Nat.lt_trichotomy j k with hj | rfl | hj
  · rw [Nat.testBit_two_pow_add_gt hj]
    have : (2 ^ k).testBit j = false := by
      simp [Nat.testBit_two_pow, Nat.ne_of_gt hj]
    simp [Nat.testBit_xor, this]
  · rw [Nat.testBit_two_pow_add_eq]
    simp [Nat.testBit_xor, Nat.testBit_two_pow, Nat.testBit_lt_two_pow h]
  · have hle : 2 ^ (k + 1) ≤ 2 ^ j := Nat.pow_le_pow_right (by omega) (by omega)
    have h1 : 2 ^ k + r < 2 ^ j := by
      have : 2 ^ k + r < 2 ^ (k + 1) := by
        rw [Nat.pow_succ]; omega
      omega
    have h2 : r < 2 ^ j := by omega
    rw [Nat.testBit_lt_two_pow h1]
    have hk : (2 ^ k).testBit j = false := by
      simp [Nat.testBit_two_pow, Nat.ne_of_lt hj]
    simp [Nat.testBit_xor, hk, Nat.testBit_lt_two_pow h2]

theorem xor_reconstruct (w : Nat) (c : Nat) :
    (List.range w).foldl (fun acc i => acc ^^^ (if c.testBit i then 2 ^ i else 0)) 0
      = c % 2 ^ w := by
  induction w with
  | zero => simp [Nat.mod_one]
  | succ w ih =>
    rw [List.range_succ, List.foldl_append, ih]
    simp only [List.foldl_cons, List.foldl_nil]
    have hsplit : c % 2 ^ (w + 1) = c % 2 ^ w + 2 ^ w * (c / 2 ^ w % 2) := by
      rw [Nat.pow_succ, Nat.mod_mul]
    have hmlt : c % 2 ^ w < 2 ^ w := Nat.mod_lt _ (Nat.pos_pow_of_pos w (by omega))
    have ht : c.testBit w = decide (c / 2 ^ w % 2 = 1) := Nat.testBit_to_div_mod
    rcases Nat.mod_two_eq_zero_or_one (c / 2 ^ w) with hp | hp
    · simp [ht, hp, hsplit]
    · rw [ht, hp]
      rw [hsplit, hp, Nat.mul_one, Nat.add_comm, two_pow_add_xor _ _ hmlt,
        Nat.xor_comm]
      simp

theorem additive_ext (f g : Nat → Nat) (w : Nat)
    (hf : ∀ a b, f (a ^^^ b) = f a ^^^ f b)
    (hg : ∀ a b, g (a ^^^ b) = g a ^^^ g b)
    (hb : ∀ i, i < w → f (2 ^ i) = g (2 ^ i)) :
    ∀ c, c < 2 ^ w → f c = g c := by
  have hzero : ∀ (h : Nat → Nat), (∀ a b, h (a ^^^ b) = h a ^^^ h b) → h 0 = 0 := by
    intro h hadd
    have := hadd 0 0
    simpa using this
  have hfold : ∀ (h : Nat → Nat), (∀ a b, h (a ^^^ b) = h a ^^^ h b) →
      ∀ (L : List Nat) (c : Nat),
        h (L.foldl (fun acc i => acc ^^^ (if c.testBit i then 2 ^ i else 0)) 0)
          = L.foldl (fun acc i => acc ^^^ (if c.testBit i then h (2 ^ i) else 0)) 0 := by
    intro h hadd L c
    suffices hgen : ∀ (a : Nat),
        h (L.foldl (fun acc i => acc ^^^ (if c.testBit i then 2 ^ i else 0)) a)
          = L.foldl (fun acc i => acc ^^^ (if c.testBit i then h (2 ^ i) else 0)) (h a) by
      have := hgen 0
      rwa [hzero h hadd] at this
    induction L with
    | nil => intro a; rfl
    | cons x L ih =>
      intro a
      simp only [List.foldl_cons]
      rw [ih, hadd]
      congr 1
      by_cases hx : c.testBit x <;> simp [hx, hzero h hadd]
  intro c hc
  have hrec := xor_reconstruct w c
  rw [Nat.mod_eq_of_lt hc] at hrec
  have hfc := hfold f hf (List.range w) c
  have hgc := hfold g hg (List.range w) c
  rw [hrec] at hfc hgc
  rw [hfc, hgc]
  apply List.foldl_ext
  intro acc x hx
  have : f (2 ^ x) = g (2 ^ x) := hb x (List.mem_range.mp hx)
  rw [this]

/-!
### Correctness of the CLMUL fold constants

`fold_k1k2` relies on six magic constants; each constant `K` must satisfy
`crc32q(0, clmul(c, K)) = crcZeros c n` for the stripe distance `n` it
serves.  Both sides are GF(2)-additive in `c`, so it is enough to check the
32 basis bits (`foldConst_of_basis`); large distances are reached by
composing verified constants (`foldConst_compose`), checking the 32 basis
bits of the composite each time.
-/

theorem Ufold_xor (K a b : Nat) :
    crcQwordVal 0 (clmul (a ^^^ b) K)
      = crcQwordVal 0 (clmul a K) ^^^ crcQwordVal 0 (clmul b K) := by
  rw [clmul_xor]
  have h := crcQwordVal_xor 0 0 (clmul a K) (clmul b K)
  simpa using h

theorem Ufold_lt (K c : Nat) : crcQwordVal 0 (clmul c K) < 2 ^ 32 :=
  crcQwordVal_lt _ _ (by omega)

theorem foldConst_of_basis (K n : Nat)
    (hb : ∀ i, i < 32 → crcQwordVal 0 (clmul (2 ^ i) K) = crcZeros (2 ^ i) n) :
    foldConstOk K n := by
  intro c hc
  exact additive_ext (fun c => crcQwordVal 0 (clmul c K)) (fun c => crcZeros c n) 32
    (fun a b => Ufold_xor K a b) (fun a b => crcZeros_xor a b n) hb c hc

theorem foldConst_compose (Ka Kb Kc a b : Nat)
    (hKa : foldConstOk Ka a) (hKb : foldConstOk Kb b)
    (hmix : ∀ i, i < 32 →
      crcQwordVal 0 (clmul (crcQwordVal 0 (clmul (2 ^ i) Ka)) Kb)
        = crcQwordVal 0 (clmul (2 ^ i) Kc)) :
    foldConstOk Kc (a + b) := by
  intro c hc
  have h1 : crcZeros c (a + b) = crcZeros (crcZeros c a) b := crcZeros_add c a b
  have h2 : crcZeros c a = crcQwordVal 0 (clmul c Ka) := (hKa c hc).symm
  have h3 : crcZeros (crcQwordVal 0 (clmul c Ka)) b
      = crcQwordVal 0 (clmul (crcQwordVal 0 (clmul c Ka)) Kb) :=
    (hKb _ (Ufold_lt Ka c)).symm
  have h4 := additive_ext
    (fun c => crcQwordVal 0 (clmul (crcQwordVal 0 (clmul c Ka)) Kb))
    (fun c => crcQwordVal 0 (clmul c Kc)) 32
    (fun x y => by
      show crcQwordVal 0 (clmul (crcQwordVal 0 (clmul (x ^^^ y) Ka)) Kb)
          = crcQwordVal 0 (clmul (crcQwordVal 0 (clmul x Ka)) Kb) ^^^
            crcQwordVal 0 (clmul (crcQwordVal 0 (clmul y Ka)) Kb)
      rw [Ufold_xor Ka x y, Ufold_xor Kb])
    (fun x y => Ufold_xor Kc x y) hmix c hc
  have h5 : crcQwordVal 0 (clmul (crcQwordVal 0 (clmul c Ka)) Kb)
      = crcQwordVal 0 (clmul c Kc) := h4
  rw [h1, h2, h3, ← h5]

set_option maxRecDepth 10000 in
/-- Base of the ladder: the constant 1 advances a crc across 8 zero bytes
(a CRC32Q of the zero-extended crc itself). -/
theorem foldConst_8 : foldConstOk 1 8 :=
  foldConst_of_basis 1 8 (by decide)

set_option maxRecDepth 10000 in
theorem foldConst_16 : foldConstOk 0x493c7d27 16 :=
  foldConst_compose 1 1 0x493c7d27 8 8 foldConst_8 foldConst_8 (by decide)

set_option maxRecDepth 10000 in
theorem foldConst_32 : foldConstOk 0xba4fc28e 32 :=
  foldConst_compose _ _ 0xba4fc28e 16 16 foldConst_16 foldConst_16 (by decide)

set_option maxRecDepth 10000 in
theorem foldConst_64 : foldConstOk 0x9e4addf8 64 :=
  foldConst_compose _ _ 0x9e4addf8 32 32 foldConst_32 foldConst_32 (by decide)

set_option maxRecDepth 10000 in
theorem foldConst_128 : foldConstOk 0x0d3b6092 128 :=
  foldConst_compose _ _ 0x0d3b6092 64 64 foldConst_64 foldConst_64 (by decide)

set_option maxRecDepth 10000 in
theorem foldConst_256 : foldConstOk 0xb9e02b86 256 :=
  foldConst_compose _ _ 0xb9e02b86 128 128 foldConst_128 foldConst_128 (by decide)

set_option maxRecDepth 10000 in
theorem foldConst_512 : foldConstOk 0xdd7e3b0c 512 :=
  foldConst_compose _ _ 0xdd7e3b0c 256 256 foldConst_256 foldConst_256 (by decide)

set_option maxRecDepth 10000 in
/-- The K2 constant of the 3072-byte kernel advances a crc across 1024 zero
bytes (one stripe width). -/
theorem foldConst_1024 : foldConstOk 0x170076fa 1024 :=
  foldConst_compose _ _ 0x170076fa 512 512 foldConst_512 foldConst_512 (by decide)

set_option maxRecDepth 10000 in
/-- The K1 constant of the 3072-byte kernel advances a crc across 2048 zero
bytes (two stripe widths). -/
theorem foldConst_2048 : foldConstOk 0xa51b6135 2048 :=
  foldConst_compose _ _ 0xa51b6135 1024 1024 foldConst_1024 foldConst_1024 (by decide)

set_option maxRecDepth 10000 in
/-- The K2 constant of the 256-byte kernel advances a crc across 80 zero
bytes (the width of the third stripe). -/
theorem foldConst_80 : foldConstOk 0x39d3b296 80 :=
  foldConst_compose _ _ 0x39d3b296 64 16 foldConst_64 foldConst_16 (by decide)

set_option maxRecDepth 10000 in
theorem foldConst_160 : foldConstOk 0x878a92a7 160 :=
  foldConst_compose _ _ 0x878a92a7 128 32 foldConst_128 foldConst_32 (by decide)

set_option maxRecDepth 10000 in
/-- The K1 constant of the 256-byte kernel advances a crc across 168 zero
bytes (the combined width of the second and third stripes). -/
theorem foldConst_168 : foldConstOk 0x1b3d8f29 168 :=
  foldConst_compose _ _ 0x1b3d8f29 160 8 foldConst_160 foldConst_8 (by decide)

set_option maxRecDepth 10000 in
theorem foldConst_320 : foldConstOk 0xbac2fd7b 320 :=
  foldConst_compose _ _ 0xbac2fd7b 256 64 foldConst_256 foldConst_64 (by decide)

set_option maxRecDepth 10000 in
theorem foldConst_336 : foldConstOk 0xa60ce07b 336 :=
  foldConst_compose _ _ 0xa60ce07b 320 16 foldConst_320 foldConst_16 (by decide)

set_option maxRecDepth 10000 in
/-- The K2 constant of the 1024-byte kernel advances a crc across 344 zero
bytes (the width of the third stripe). -/
theorem foldConst_344 : foldConstOk 0x8f158014 344 :=
  foldConst_compose _ _ 0x8f158014 336 8 foldConst_336 foldConst_8 (by decide)

set_option maxRecDepth 10000 in
theorem foldConst_640 : foldConstOk 0x6b749fb2 640 :=
  foldConst_compose _ _ 0x6b749fb2 512 128 foldConst_512 foldConst_128 (by decide)

set_option maxRecDepth 10000 in
theorem foldConst_672 : foldConstOk 0xcec3662e 672 :=
  foldConst_compose _ _ 0xcec3662e 640 32 foldConst_640 foldConst_32 (by decide)

set_option maxRecDepth 10000 in
/-- The K1 constant of the 1024-byte kernel advances a crc across 680 zero
bytes (the combined width of the second and third stripes). -/
theorem foldConst_680 : foldConstOk 0xe417f38a 680 :=
  foldConst_compose _ _ 0xe417f38a 672 8 foldConst_672 foldConst_8 (by decide)

/-!
### A CRC32Q chain over consecutive qwords is sequential byte processing
-/

theorem leBytes_extract : ∀ (bs : List Byte) (i : Nat) (h : i < bs.length),
    ((leBytes bs) >>> (8 * i)) % 256 = (bs.get ⟨i, h⟩).val := by
  intro bs
  induction bs with
  | nil => intro i h; simp at h
  | cons b t ih =>
    intro i h
    cases i with
    | zero =>
      have hb := b.isLt
      simp only [leBytes, List.foldr_cons, Nat.mul_zero, Nat.shiftRight_zero]
      show (b.val + 256 * leBytes t) % 256 = b.val
      rw [Nat.add_mul_mod_self_left, Nat.mod_eq_of_lt hb]
    | succ i =>
      have hb := b.isLt
      have hv : leBytes (b :: t) = b.val + 256 * leBytes t := rfl
      have hdiv : leBytes (b :: t) / 256 = leBytes t := by
        rw [hv, Nat.add_mul_div_left _ _ (by omega), Nat.div_eq_of_lt hb, Nat.zero_add]
      have hsh : leBytes (b :: t) >>> (8 * (i + 1)) = leBytes t >>> (8 * i) := by
        rw [Nat.shiftRight_eq_div_pow, Nat.shiftRight_eq_div_pow]
        have : 8 * (i + 1) = 8 + 8 * i := by omega
        rw [this, Nat.pow_add, ← Nat.div_div_eq_div_mul]
        norm_num [hdiv]
      rw [hsh, ih i (by simpa using h)]
      rfl

theorem qwordBytes_leBytes (bs : List Byte) (h : bs.length = 8) :
    qwordBytes (leBytes bs) = bs.map Fin.val := by
  apply List.ext_getElem
  · simp [qwordBytes, h]
  · intro i h1 h2
    simp only [qwordBytes, List.getElem_map, List.getElem_range]
    exact leBytes_extract bs i (by simp [qwordBytes] at h1; omega)

theorem crcBytes_append (c : Nat) (A B : List Byte) :
    crcBytes c (A ++ B) = crcBytes (crcBytes c A) B := by
  simp [crcBytes, crcBytesN, List.foldl_append]

theorem seg_split (buf : List Byte) (o m n : Nat) :
    seg buf o (m + n) = seg buf o m ++ seg buf (o + m) n := by
  rw [seg, List.take_add, seg, seg]
  congr 2
  rw [List.drop_drop, Nat.add_comm]

theorem seg_length (buf : List Byte) (o n : Nat) (h : o + n ≤ buf.length) :
    (seg buf o n).length = n := by
  simp [seg]
  omega

theorem crcQmem_eq (buf : List Byte) (o c : Nat) (h : o + 8 ≤ buf.length) :
    crcQmem buf o c = crcBytes c (seg buf o 8) := by
  rw [crcQmem, crcQwordVal, le64At,
    qwordBytes_leBytes _ (by simp; omega)]
  rfl

theorem crcQwordsAt_range (buf : List Byte) :
    ∀ (k o c : Nat), o + 8 * k ≤ buf.length →
      crcQwordsAt buf c ((List.range k).map fun j => o + 8 * j)
        = crcBytes c (seg buf o (8 * k)) := by
  intro k
  induction k with
  | zero =>
    intro o c h
    simp [crcQwordsAt_eq, seg, crcBytes, crcBytesN]
  | succ k ih =>
    intro o c h
    rw [crcQwordsAt_eq, List.range_succ, List.map_append, List.foldl_append]
    have hk : o + 8 * k ≤ buf.length := by omega
    have hfold := ih o c hk
    rw [crcQwordsAt_eq] at hfold
    rw [hfold]
    simp only [List.map_cons, List.map_nil, List.foldl_cons, List.foldl_nil]
    rw [crcQmem_eq buf (o + 8 * k) _ (by omega), ← crcBytes_append]
    have hsm : 8 * (k + 1) = 8 * k + 8 := by omega
    rw [hsm, seg_split]

/-!
### The stripe recombination is exact
-/

theorem crcBytes_decomp (M : List Byte) (c : Nat) :
    crcBytes c M = crcZeros c M.length ^^^ crcBytes 0 M := by
  have h := crcBytesN_decomp (M.map Fin.val) c
  simpa [crcBytes] using h

theorem fold_k1k2_correct (K1 K2 n1 n2 : Nat) (S0 S1 S2 : List Byte) (crc : Nat)
    (hc : crc < 2 ^ 32)
    (hK1 : foldConstOk K1 n1) (hK2 : foldConstOk K2 n2)
    (hn1 : n1 = S1.length + S2.length) (hn2 : n2 = S2.length) :
    fold_k1k2 K1 K2 (crcBytes crc S0) (crcBytes 0 S1) (crcBytes 0 S2)
      = crcBytes crc (S0 ++ S1 ++ S2) := by
  have hc0 : crcBytes crc S0 < 2 ^ 32 := crcBytes_lt S0 crc hc
  have hc1 : crcBytes 0 S1 < 2 ^ 32 := crcBytes_lt S1 0 (by omega)
  have hfull : crcBytes crc (S0 ++ S1 ++ S2)
      = crcZeros (crcBytes crc S0) n1 ^^^ (crcZeros (crcBytes 0 S1) n2 ^^^ crcBytes 0 S2) := by
    rw [List.append_assoc, crcBytes_append, crcBytes_decomp (S1 ++ S2),
      crcBytes_append, crcBytes_decomp S2 (crcBytes 0 S1)]
    rw [List.length_append, hn1, hn2]
  rw [hfull, fold_k1k2, hK1 _ hc0, hK2 _ hc1]
  simp [Nat.xor_assoc, Nat.xor_comm, xor_left_comm]

theorem qoffs8_eq (base : Nat) : qoffs8 base = (List.range 8).map fun j => base + 8 * j := by
  simp [qoffs8, list_range_eight]

theorem stripe3Loop_eq (buf : List Byte) (d1 d2 : Nat) (hd : d1 ≤ d2) :
    ∀ (k pos c0 c1 c2 : Nat), pos + d2 + 64 * k ≤ buf.length →
      stripe3Loop buf d1 d2 pos k c0 c1 c2
        = (pos + 64 * k,
           crcBytes c0 (seg buf pos (64 * k)),
           crcBytes c1 (seg buf (pos + d1) (64 * k)),
           crcBytes c2 (seg buf (pos + d2) (64 * k))) := by
  intro k
  induction k with
  | zero =>
    intro pos c0 c1 c2 h
    simp [stripe3Loop, seg, crcBytes, crcBytesN]
  | succ k ih =>
    intro pos c0 c1 c2 h
    simp only [stripe3Loop, forceThen_eq]
    have h0 : crcQwordsAt buf c0 (qoffs8 pos) = crcBytes c0 (seg buf pos 64) := by
      rw [qoffs8_eq, crcQwordsAt_range buf 8 pos c0 (by omega)]
    have h1 : crcQwordsAt buf c1 (qoffs8 (pos + d1)) = crcBytes c1 (seg buf (pos + d1) 64) := by
      rw [qoffs8_eq, crcQwordsAt_range buf 8 (pos + d1) c1 (by omega)]
    have h2 : crcQwordsAt buf c2 (qoffs8 (pos + d2)) = crcBytes c2 (seg buf (pos + d2) 64) := by
      rw [qoffs8_eq, crcQwordsAt_range buf 8 (pos + d2) c2 (by omega)]
    rw [h0, h1, h2, ih (pos + 64) _ _ _ (by omega)]
    have e0 : pos + 64 + 64 * k = pos + 64 * (k + 1) := by omega
    have e1 : pos + 64 + d1 = pos + d1 + 64 := by omega
    have e2 : pos + 64 + d2 = pos + d2 + 64 := by omega
    have hs : ∀ (o c : Nat), crcBytes (crcBytes c (seg buf o 64)) (seg buf (o + 64) (64 * k))
        = crcBytes c (seg buf o (64 * (k + 1))) := by
      intro o c
      have e : 64 * (k + 1) = 64 + 64 * k := by omega
      rw [e, seg_split, crcBytes_append]
    rw [e0, e1, e2, hs pos c0, hs (pos + d1) c1, hs (pos + d2) c2]

theorem crcBytes_seg_join (buf : List Byte) (c o m n : Nat) :
    crcBytes (crcBytes c (seg buf o m)) (seg buf (o + m) n) = crcBytes c (seg buf o (m + n)) := by
  rw [← crcBytes_append, ← seg_split]

theorem seg_all (buf : List Byte) (n : Nat) (hlen : buf.length = n) : seg buf 0 n = buf := by
  rw [seg, List.drop_zero, ← hlen, List.take_length]

/-- The 256-byte stripe kernel computes exactly the sequential CRC of its
256 bytes. -/
theorem kernel256_eq_seq (buf : List Byte) (crc : Nat) (hc : crc < 2 ^ 32)
    (hlen : buf.length = 256) :
    s_crc32c_sse42_clmul_256 buf crc = crcBytes crc buf := by
  have e0 : stripe256c0 = (List.range 11).map fun j => 0 + 8 * j := by decide
  have e1 : stripe256c1 = (List.range 11).map fun j => 88 + 8 * j := by decide
  have e2 : stripe256c2 = (List.range 10).map fun j => 176 + 8 * j := by decide
  rw [s_crc32c_sse42_clmul_256, e0, e1, e2,
    crcQwordsAt_range buf 11 0 crc (by omega),
    crcQwordsAt_range buf 11 88 0 (by omega),
    crcQwordsAt_range buf 10 176 0 (by omega)]
  norm_num
  have hbuf : buf = seg buf 0 88 ++ seg buf 88 88 ++ seg buf 176 80 := by
    have h1 : seg buf 0 256 = seg buf 0 88 ++ seg buf 88 168 := by
      have e : (256 : Nat) = 88 + 168 := by norm_num
      rw [e, seg_split]
    have h2 : seg buf 88 168 = seg buf 88 88 ++ seg buf 176 80 := by
      have e : (168 : Nat) = 88 + 80 := by norm_num
      rw [e, seg_split]
    have h0 := (seg_all buf 256 hlen).symm
    rw [h1, h2, ← List.append_assoc] at h0
    exact h0
  rw [fold_k1k2_correct 0x1b3d8f29 0x39d3b296 168 80 _ _ _ crc hc
    foldConst_168 foldConst_80
    (by rw [seg_length buf 88 88 (by omega), seg_length buf 176 80 (by omega)])
    (by rw [seg_length buf 176 80 (by omega)]), ← hbuf]

/-- The 1024-byte stripe kernel computes exactly the sequential CRC of its
1024 bytes. -/
theorem kernel1024_eq_seq (buf : List Byte) (crc : Nat) (hc : crc < 2 ^ 32)
    (hlen : buf.length = 1024) :
    s_crc32c_sse42_clmul_1024 buf crc = crcBytes crc buf := by
  rw [s_crc32c_sse42_clmul_1024,
    stripe3Loop_eq buf 344 680 (by omega) 5 0 crc 0 0 (by omega)]
  simp only []
  norm_num
  have t0 : [(320 : Nat), 328, 336] = (List.range 3).map fun j => 320 + 8 * j := by decide
  have t1 : [(664 : Nat), 672] = (List.range 2).map fun j => 664 + 8 * j := by decide
  have t2 : [(1000 : Nat), 1008, 1016] = (List.range 3).map fun j => 1000 + 8 * j := by decide
  rw [t0, t1, t2,
    crcQwordsAt_range buf 3 320 _ (by omega),
    crcQwordsAt_range buf 2 664 _ (by omega),
    crcQwordsAt_range buf 3 1000 _ (by omega)]
  have j0 := crcBytes_seg_join buf crc 0 320 24
  have j1 := crcBytes_seg_join buf 0 344 320 16
  have j2 := crcBytes_seg_join buf 0 680 320 24
  norm_num at j0 j1 j2
  rw [j0, j1, j2]
  have hbuf : buf = seg buf 0 344 ++ seg buf 344 336 ++ seg buf 680 344 := by
    have h1 : seg buf 0 1024 = seg buf 0 344 ++ seg buf 344 680 := by
      have e : (1024 : Nat) = 344 + 680 := by norm_num
      rw [e, seg_split]
    have h2 : seg buf 344 680 = seg buf 344 336 ++ seg buf 680 344 := by
      have e : (680 : Nat) = 336 + 344 := by norm_num
      rw [e, seg_split]
    have h0 := (seg_all buf 1024 hlen).symm
    rw [h1, h2, ← List.append_assoc] at h0
    exact h0
  rw [fold_k1k2_correct 0xe417f38a 0x8f158014 680 344 _ _ _ crc hc
    foldConst_680 foldConst_344
    (by rw [seg_length buf 344 336 (by omega), seg_length buf 680 344 (by omega)])
    (by rw [seg_length buf 680 344 (by omega)]), ← hbuf]

/-- The 3072-byte stripe kernel computes exactly the sequential CRC of its
3072 bytes. -/
theorem kernel3072_eq_seq (buf : List Byte) (crc : Nat) (hc : crc < 2 ^ 32)
    (hlen : buf.length = 3072) :
    s_crc32c_sse42_clmul_3072 buf crc = crcBytes crc buf := by
  rw [s_crc32c_sse42_clmul_3072,
    stripe3Loop_eq buf 1024 2048 (by omega) 16 0 crc 0 0 (by omega)]
  simp only []
  norm_num
  have hbuf : buf = seg buf 0 1024 ++ seg buf 1024 1024 ++ seg buf 2048 1024 := by
    have h1 : seg buf 0 3072 = seg buf 0 1024 ++ seg buf 1024 2048 := by
      have e : (3072 : Nat) = 1024 + 2048 := by norm_num
      rw [e, seg_split]
    have h2 : seg buf 1024 2048 = seg buf 1024 1024 ++ seg buf 2048 1024 := by
      have e : (2048 : Nat) = 1024 + 1024 := by norm_num
      rw [e, seg_split]
    have h0 := (seg_all buf 3072 hlen).symm
    rw [h1, h2, ← List.append_assoc] at h0
    exact h0
  rw [fold_k1k2_correct 0xa51b6135 0x170076fa 2048 1024 _ _ _ crc hc
    foldConst_2048 foldConst_1024
    (by rw [seg_length buf 1024 1024 (by omega), seg_length buf 2048 1024 (by omega)])
    (by rw [seg_length buf 2048 1024 (by omega)]), ← hbuf]

/-!
### The scalar drain of the dispatcher is sequential byte processing
-/

theorem compl32_compl32 (x : Nat) : compl32 (compl32 x) = x := by
  rw [compl32, compl32, Nat.xor_assoc, Nat.xor_self, Nat.xor_zero]

theorem drainQAux_eq : ∀ (fuel : Nat) (input : List Byte) (crc : Nat),
    input.length ≤ fuel →
    drainQAux fuel input crc
      = (crcBytes crc (input.take (8 * (input.length / 8))),
         input.drop (8 * (input.length / 8))) := by
  intro fuel
  induction fuel with
  | zero =>
    intro input crc h
    have h0 : input = [] := List.length_eq_zero.mp (by omega)
    subst h0
    simp [drainQAux, crcBytes, crcBytesN]
  | succ fuel ih =>
    intro input crc h
    by_cases h8 : 8 ≤ input.length
    · rw [drainQAux, if_pos h8, forceThen_eq]
      have hq : crcQwordVal crc (le64At input 0) = crcBytes crc (input.take 8) := by
        have := crcQmem_eq input 0 crc (by omega)
        rw [crcQmem] at this
        rw [this, seg, List.drop_zero]
      rw [hq, ih (input.drop 8) _ (by simp; omega)]
      have hlen : (input.drop 8).length = input.length - 8 := by simp
      have harith : 8 * ((input.length - 8) / 8) = 8 * (input.length / 8) - 8 := by omega
      have htake : (input.drop 8).take (8 * ((input.drop 8).length / 8))
          = (input.drop 8).take (8 * (input.length / 8) - 8) := by rw [hlen, harith]
      have hdrop : (input.drop 8).drop (8 * ((input.drop 8).length / 8))
          = input.drop (8 * (input.length / 8)) := by
        rw [hlen, harith, List.drop_drop]
        congr 1
        omega
      rw [htake, hdrop, ← crcBytes_append]
      congr 2
      rw [← List.take_add]
      congr 1
      omega
    · rw [drainQAux, if_neg h8]
      have h0 : input.length / 8 = 0 := by omega
      simp [h0, crcBytes, crcBytesN]

theorem hwTail_eq (input : List Byte) (crc : Nat) :
    hwTail input crc = compl32 (crcBytes crc input) := by
  rw [hwTail, drainQAux_eq input.length input crc (Nat.le_refl _)]
  simp only [crcBytesF_eq]
  rw [← crcBytes_append, List.take_append_drop]

/-!
### The first dispatcher branch: very small inputs
-/

theorem hw_small (st : DetectionState) (align : Nat) (input : List Byte) (seed : Nat)
    (h : input.length < 8) :
    aws_checksums_crc32c_hw st align input seed
      = compl32 (crcBytes (compl32 seed) input) := by
  rw [aws_checksums_crc32c_hw, if_pos h, crcBytesF_eq]

/-!
### `crc32c_avx512` reads only the `64 * (length / 64)` byte head of its input
-/

theorem loadu512_take (buf : List Byte) (X o : Nat) (h : o + 64 ≤ X) :
    loadu512 (buf.take X) o = loadu512 buf o := by
  rw [loadu512, loadu512, List.drop_take, List.take_take, Nat.min_eq_left (by omega)]

set_option maxRecDepth 8000 in
theorem avx512Loop256_take (x0 : Nat) :
    ∀ (fuel L : Nat) (input : List Byte) (s : Nat × Nat × Nat × Nat), L ≤ fuel →
      avx512Loop256 x0 fuel (input.take (64 * (L / 64))) L s
        = ((avx512Loop256 x0 fuel input L s).1,
           (avx512Loop256 x0 fuel input L s).2.1.take
             (64 * ((avx512Loop256 x0 fuel input L s).2.2 / 64)),
           (avx512Loop256 x0 fuel input L s).2.2) := by
  intro fuel
  induction fuel with
  | zero =>
    intro L input s h
    rw [avx512Loop256, avx512Loop256]
  | succ fuel ih =>
    intro L input s h
    by_cases h256 : 256 ≤ L
    · have hq : 256 ≤ 64 * (L / 64) := by omega
      rw [avx512Loop256, if_pos h256]
      simp only [forceThen_eq]
      rw [loadu512_take input _ 0x00 (by omega), loadu512_take input _ 0x40 (by omega),
        loadu512_take input _ 0x80 (by omega), loadu512_take input _ 0xC0 (by omega)]
      have hdt : (input.take (64 * (L / 64))).drop 256
          = (input.drop 256).take (64 * ((L - 256) / 64)) := by
        rw [List.drop_take]
        congr 1
        omega
      rw [hdt, ih (L - 256) (input.drop 256) _ (by omega)]
      conv_rhs => rw [avx512Loop256, if_pos h256]
      simp only [forceThen_eq]
    · rw [avx512Loop256, if_neg h256]
      conv_rhs => rw [avx512Loop256, if_neg h256]

set_option maxRecDepth 8000 in
theorem avx512Loop64_take (x0 : Nat) :
    ∀ (fuel L : Nat) (input : List Byte) (x1 : Nat), L ≤ fuel →
      avx512Loop64 x0 fuel (input.take (64 * (L / 64))) L x1
        = ((avx512Loop64 x0 fuel input L x1).1,
           (avx512Loop64 x0 fuel input L x1).2.1.take
             (64 * ((avx512Loop64 x0 fuel input L x1).2.2 / 64)),
           (avx512Loop64 x0 fuel input L x1).2.2) := by
  intro fuel
  induction fuel with
  | zero =>
    intro L input x1 h
    rw [avx512Loop64, avx512Loop64]
  | succ fuel ih =>
    intro L input x1 h
    by_cases h64 : 64 ≤ L
    · have hq : 64 ≤ 64 * (L / 64) := by omega
      rw [avx512Loop64, if_pos h64]
      simp only [forceThen_eq]
      rw [loadu512_take input _ 0 (by omega)]
      have hdt : (input.take (64 * (L / 64))).drop 64
          = (input.drop 64).take (64 * ((L - 64) / 64)) := by
        rw [List.drop_take]
        congr 1
        omega
      rw [hdt, ih (L - 64) (input.drop 64) _ (by omega)]
      conv_rhs => rw [avx512Loop64, if_pos h64]
      simp only [forceThen_eq]
    · rw [avx512Loop64, if_neg h64]
      conv_rhs => rw [avx512Loop64, if_neg h64]

set_option maxRecDepth 8000 in
/-- `crc32c_avx512` depends only on the first `64 * (length / 64)` bytes of
the buffer: evaluating it on that prefix gives the same result. -/
theorem crc32c_avx512_take (input : List Byte) (L crc : Nat) (h : 256 ≤ L) :
    crc32c_avx512 (input.take (64 * (L / 64))) L crc = crc32c_avx512 input L crc := by
  have hq : 256 ≤ 64 * (L / 64) := by omega
  rw [crc32c_avx512, crc32c_avx512]
  rw [loadu512_take input _ 0x00 (by omega), loadu512_take input _ 0x40 (by omega),
    loadu512_take input _ 0x80 (by omega), loadu512_take input _ 0xC0 (by omega)]
  have hdt : (input.take (64 * (L / 64))).drop 256
      = (input.drop 256).take (64 * ((L - 256) / 64)) := by
    rw [List.drop_take]
    congr 1
    omega
  rw [hdt, avx512Loop256_take k1k2 L (L - 256) (input.drop 256) _ (by omega)]
  set r := avx512Loop256 k1k2 L (input.drop 256) (L - 256)
    (loadu512 input 0x00 ^^^ crc, loadu512 input 0x40, loadu512 input 0x80,
     loadu512 input 0xC0) with hr
  rw [avx512Loop64_take k3k4 r.2.2 r.2.2 r.2.1 _ (Nat.le_refl _)]

theorem crcBytesF_nil (c : Nat) : crcBytesF c [] = c := rfl

theorem hw_align_mod (st : DetectionState) (align : Nat) (input : List Byte) (seed : Nat) :
    aws_checksums_crc32c_hw st align input seed
      = aws_checksums_crc32c_hw st (align % 8) input seed := by
  rw [aws_checksums_crc32c_hw, aws_checksums_crc32c_hw,
    Nat.mod_mod_of_dvd align (dvd_refl 8)]

/-- The avx512 branch of the dispatcher, lines 507-517, for an 8-byte
aligned pointer: the chunk size is the length rounded down to a multiple of
64, computed before the call; if nothing remains the complemented folder
result is returned directly, otherwise the dispatcher advances the input by
exactly the chunk size and the scalar drain loops process the residue. -/
theorem hw_avx512_branch (st : DetectionState) (input : List Byte) (seed : Nat)
    (hclm : st.detected_clmul = true) (havx : st.detected_avx512 = true)
    (h256 : 256 ≤ input.length) :
    aws_checksums_crc32c_hw st 0 input seed
      = (if input.length - 64 * (input.length / 64) = 0 then
           compl32 (crc32c_avx512 input input.length (compl32 seed))
         else
           compl32 (crcBytes (compl32 (crc32c_avx512 input input.length (compl32 seed)))
             (input.drop (64 * (input.length / 64))))) := by
  rw [aws_checksums_crc32c_hw, if_neg (by omega)]
  simp only [Nat.zero_mod, Nat.sub_zero, Nat.mod_self, List.take_zero, List.drop_zero,
    crcBytesF_nil, hclm, havx, if_true]
  rw [if_pos h256]
  split
  · rfl
  · rw [hwTail_eq]

/-!
## The claims
-/

/-- Claim C3: for every running crc value and every buffer of exactly N
bytes (N = 256, 1024 or 3072), the matching stripe-folder kernel
(`s_crc32c_sse42_clmul_256`/`1024`/`3072`) returns exactly the crc that
sequential scalar CRC32C processing of those N bytes starting from the same
running crc would produce, with no complement applied to the input crc or
the result. -/
theorem claimC3_stripe_kernels_exact (buf : List Byte) (crc : Nat) (hc : crc < 2 ^ 32) :
    (buf.length = 256 → s_crc32c_sse42_clmul_256 buf crc = crcBytes crc buf) ∧
    (buf.length = 1024 → s_crc32c_sse42_clmul_1024 buf crc = crcBytes crc buf) ∧
    (buf.length = 3072 → s_crc32c_sse42_clmul_3072 buf crc = crcBytes crc buf) :=
  ⟨fun h => kernel256_eq_seq buf crc hc h,
   fun h => kernel1024_eq_seq buf crc hc h,
   fun h => kernel3072_eq_seq buf crc hc h⟩

set_option maxRecDepth 100000 in
theorem claimC3_stripe_kernels_exact_witness :
    (5 : Nat) < 2 ^ 32 ∧ (mkBuf 256).length = 256 ∧
      s_crc32c_sse42_clmul_256 (mkBuf 256) 5 = crcBytes 5 (mkBuf 256) :=
  ⟨by decide, by decide,
   (claimC3_stripe_kernels_exact (mkBuf 256) 5 (by decide)).1 (by decide)⟩

/-- Claim C4: when the wide-vector tier is taken (clmul and avx512
detected, at least 256 bytes remaining after the — here empty — alignment
prologue), the wide-vector folder consumes exactly the prefix of length
rounded down to a multiple of 64 (its result depends only on that prefix),
the dispatcher computes that chunk size before the call and advances the
input and shrinks the length by exactly that amount, and the residue of
fewer than 64 bytes is then drained by the scalar loops. -/
theorem claimC4_avx512_consumes_multiple_of_64 (st : DetectionState) (input : List Byte)
    (seed : Nat) (hclm : st.detected_clmul = true) (havx : st.detected_avx512 = true)
    (h256 : 256 ≤ input.length) :
    crc32c_avx512 input input.length (compl32 seed)
        = crc32c_avx512 (input.take (64 * (input.length / 64))) input.length (compl32 seed) ∧
    input.length - 64 * (input.length / 64) < 64 ∧
    aws_checksums_crc32c_hw st 0 input seed
      = (if input.length - 64 * (input.length / 64) = 0 then
           compl32 (crc32c_avx512 input input.length (compl32 seed))
         else
           compl32 (crcBytes (compl32 (crc32c_avx512 input input.length (compl32 seed)))
             (input.drop (64 * (input.length / 64))))) :=
  ⟨(crc32c_avx512_take input input.length (compl32 seed) h256).symm,
   by omega,
   hw_avx512_branch st input seed hclm havx h256⟩

set_option maxRecDepth 100000 in
theorem claimC4_avx512_consumes_multiple_of_64_witness :
    capsAll.detected_clmul = true ∧ capsAll.detected_avx512 = true ∧
      256 ≤ (mkBuf 320).length ∧
      (crc32c_avx512 (mkBuf 320) (mkBuf 320).length (compl32 7)
          = crc32c_avx512 ((mkBuf 320).take (64 * ((mkBuf 320).length / 64)))
              (mkBuf 320).length (compl32 7) ∧
        (mkBuf 320).length - 64 * ((mkBuf 320).length / 64) < 64 ∧
        aws_checksums_crc32c_hw capsAll 0 (mkBuf 320) 7
          = (if (mkBuf 320).length - 64 * ((mkBuf 320).length / 64) = 0 then
               compl32 (crc32c_avx512 (mkBuf 320) (mkBuf 320).length (compl32 7))
             else
               compl32 (crcBytes
                 (compl32 (crc32c_avx512 (mkBuf 320) (mkBuf 320).length (compl32 7)))
                 ((mkBuf 320).drop (64 * ((mkBuf 320).length / 64)))))) :=
  ⟨by decide, by decide, by decide,
   claimC4_avx512_consumes_multiple_of_64 capsAll (mkBuf 320) 7 (by decide) (by decide)
     (by decide)⟩

/-- Claim C5: a call with length 0 returns the seed unchanged, for every
detection state, every buffer address alignment and every seed. -/
theorem claimC5_empty_input_identity (st : DetectionState) (align : Nat) (seed : Nat) :
    aws_checksums_crc32c_hw st align [] seed = seed := by
  rw [hw_small st align [] seed (by simp)]
  simp [crcBytes, crcBytesN, compl32_compl32]

set_option maxRecDepth 100000 in
/-- Claim C6: the CRC32C of the ASCII bytes of the digits 1 to 9 with seed
0 is 0xE3069283 under every combination of detected capabilities and every
buffer address alignment. -/
theorem claimC6_known_vector :
    ∀ (st : DetectionState) (align : Nat),
      aws_checksums_crc32c_hw st align buf123456789 0 = 0xE3069283 := by
  have hfin : ∀ (st : DetectionState) (a : Fin 8),
      aws_checksums_crc32c_hw st a.val buf123456789 0 = 0xE3069283 := by decide
  intro st align
  rw [hw_align_mod]
  exact hfin st ⟨align % 8, Nat.mod_lt align (by omega)⟩

/-- Claim C7: for every input of fewer than 8 bytes the dispatcher drains
every byte one at a time with the scalar byte instruction and returns the
complement of the accumulator immediately — the result is exactly the pure
byte-at-a-time CRC, with no alignment computation and no folding kernel,
regardless of pointer alignment or detected capabilities. -/
theorem claimC7_small_input_bytewise (st : DetectionState) (align : Nat)
    (input : List Byte) (seed : Nat) (h : input.length < 8) :
    aws_checksums_crc32c_hw st align input seed
      = compl32 (crcBytes (compl32 seed) input) :=
  hw_small st align input seed h

set_option maxRecDepth 100000 in
theorem claimC7_small_input_bytewise_witness :
    (mkBuf 5).length < 8 ∧
      aws_checksums_crc32c_hw capsAll 3 (mkBuf 5) 9
        = compl32 (crcBytes (compl32 9) (mkBuf 5)) :=
  ⟨by decide, claimC7_small_input_bytewise capsAll 3 (mkBuf 5) 9 (by decide)⟩

/-- Claim C10: the capability flags are written at most once per process:
a call that finds `detection_performed` set leaves the state untouched, and
any number of consecutive calls starting from the initial state observe
exactly the state produced by the first call. -/
theorem claimC10_detection_write_once :
    (∀ (cpu : CpuFeatures) (s : DetectionState), s.detection_performed = true →
        detectStep cpu s = s) ∧
    (∀ (cpu : CpuFeatures) (n : Nat),
        (detectStep cpu)^[n + 1] initialDetectionState
          = detectStep cpu initialDetectionState) := by
  constructor
  · intro cpu s h
    rw [detectStep, if_pos h]
  · intro cpu n
    induction n with
    | zero => rfl
    | succ n ih =>
      rw [Function.iterate_succ_apply', ih]
      simp [detectStep, initialDetectionState]

theorem claimC10_detection_write_once_witness :
    (⟨true, true, false, true⟩ : DetectionState).detection_performed = true ∧
      detectStep ⟨true, false, true⟩ ⟨true, true, false, true⟩
        = (⟨true, true, false, true⟩ : DetectionState) :=
  ⟨by decide,
   claimC10_detection_write_once.1 ⟨true, false, true⟩ ⟨true, true, false, true⟩ (by decide)⟩

/-- Claim C9 as stated is false at the 256-byte kernel: its three stripes
cover 8 × 11 = 88, 8 × 11 = 88 and 8 × 10 = 80 bytes, and none of these
equals 256 / 3 (256 is not even divisible by 3). -/
theorem claimC9_counterexample :
    (256 : Nat) % 3 ≠ 0 ∧
      ¬(8 * stripe256c0.length = 256 / 3 ∧ 8 * stripe256c1.length = 256 / 3 ∧
        8 * stripe256c2.length = 256 / 3) := by decide

/-- Claim C9, amended: each stripe-folder kernel partitions its N-byte
block into three contiguous stripes — widths (88, 88, 80) for N = 256,
(344, 336, 344) for N = 1024, and (1024, 1024, 1024) = (N/3, N/3, N/3) for
N = 3072 — processed by three independent (instruction-interleaved) scalar
CRC accumulations and recombined with `FOLD_K1K2`; only the 3072-byte
kernel has three equal-width stripes of exactly N / 3 bytes. -/
theorem claimC9_amended_contiguous_stripes (buf : List Byte) (crc : Nat) :
    (buf.length = 256 →
      s_crc32c_sse42_clmul_256 buf crc
        = fold_k1k2 0x1b3d8f29 0x39d3b296 (crcBytes crc (seg buf 0 88))
            (crcBytes 0 (seg buf 88 88)) (crcBytes 0 (seg buf 176 80)) ∧
      seg buf 0 88 ++ seg buf 88 88 ++ seg buf 176 80 = buf) ∧
    (buf.length = 1024 →
      s_crc32c_sse42_clmul_1024 buf crc
        = fold_k1k2 0xe417f38a 0x8f158014 (crcBytes crc (seg buf 0 344))
            (crcBytes 0 (seg buf 344 336)) (crcBytes 0 (seg buf 680 344)) ∧
      seg buf 0 344 ++ seg buf 344 336 ++ seg buf 680 344 = buf) ∧
    (buf.length = 3072 →
      s_crc32c_sse42_clmul_3072 buf crc
        = fold_k1k2 0xa51b6135 0x170076fa (crcBytes crc (seg buf 0 1024))
            (crcBytes 0 (seg buf 1024 1024)) (crcBytes 0 (seg buf 2048 1024)) ∧
      seg buf 0 1024 ++ seg buf 1024 1024 ++ seg buf 2048 1024 = buf ∧
      (1024 : Nat) = 3072 / 3) := by
  refine ⟨fun hlen => ⟨?_, ?_⟩, fun hlen => ⟨?_, ?_⟩, fun hlen => ⟨?_, ?_, by norm_num⟩⟩
  · have e0 : stripe256c0 = (List.range 11).map fun j => 0 + 8 * j := by decide
    have e1 : stripe256c1 = (List.range 11).map fun j => 88 + 8 * j := by decide
    have e2 : stripe256c2 = (List.range 10).map fun j => 176 + 8 * j := by decide
    rw [s_crc32c_sse42_clmul_256, e0, e1, e2,
      crcQwordsAt_range buf 11 0 crc (by omega),
      crcQwordsAt_range buf 11 88 0 (by omega),
      crcQwordsAt_range buf 10 176 0 (by omega)]
  · have h1 : seg buf 0 256 = seg buf 0 88 ++ seg buf 88 168 := by
      have e : (256 : Nat) = 88 + 168 := by norm_num
      rw [e, seg_split]
    have h2 : seg buf 88 168 = seg buf 88 88 ++ seg buf 176 80 := by
      have e : (168 : Nat) = 88 + 80 := by norm_num
      rw [e, seg_split]
    have h0 := seg_all buf 256 hlen
    rw [h1, h2, ← List.append_assoc] at h0
    exact h0
  · rw [s_crc32c_sse42_clmul_1024,
      stripe3Loop_eq buf 344 680 (by omega) 5 0 crc 0 0 (by omega)]
    simp only []
    norm_num
    have t0 : [(320 : Nat), 328, 336] = (List.range 3).map fun j => 320 + 8 * j := by decide
    have t1 : [(664 : Nat), 672] = (List.range 2).map fun j => 664 + 8 * j := by decide
    have t2 : [(1000 : Nat), 1008, 1016] = (List.range 3).map fun j => 1000 + 8 * j := by
      decide
    rw [t0, t1, t2,
      crcQwordsAt_range buf 3 320 _ (by omega),
      crcQwordsAt_range buf 2 664 _ (by omega),
      crcQwordsAt_range buf 3 1000 _ (by omega)]
    have j0 := crcBytes_seg_join buf crc 0 320 24
    have j1 := crcBytes_seg_join buf 0 344 320 16
    have j2 := crcBytes_seg_join buf 0 680 320 24
    norm_num at j0 j1 j2
    rw [j0, j1, j2]
  · have h1 : seg buf 0 1024 = seg buf 0 344 ++ seg buf 344 680 := by
      have e : (1024 : Nat) = 344 + 680 := by norm_num
      rw [e, seg_split]
    have h2 : seg buf 344 680 = seg buf 344 336 ++ seg buf 680 344 := by
      have e : (680 : Nat) = 336 + 344 := by norm_num
      rw [e, seg_split]
    have h0 := seg_all buf 1024 hlen
    rw [h1, h2, ← List.append_assoc] at h0
    exact h0
  · rw [s_crc32c_sse42_clmul_3072,
      stripe3Loop_eq buf 1024 2048 (by omega) 16 0 crc 0 0 (by omega)]
  · have h1 : seg buf 0 3072 = seg buf 0 1024 ++ seg buf 1024 2048 := by
      have e : (3072 : Nat) = 1024 + 2048 := by norm_num
      rw [e, seg_split]
    have h2 : seg buf 1024 2048 = seg buf 1024 1024 ++ seg buf 2048 1024 := by
      have e : (2048 : Nat) = 1024 + 1024 := by norm_num
      rw [e, seg_split]
    have h0 := seg_all buf 3072 hlen
    rw [h1, h2, ← List.append_assoc] at h0
    exact h0

set_option maxRecDepth 100000 in
theorem claimC9_amended_contiguous_stripes_witness :
    (mkBuf 256).length = 256 ∧
      (s_crc32c_sse42_clmul_256 (mkBuf 256) 5
          = fold_k1k2 0x1b3d8f29 0x39d3b296 (crcBytes 5 (seg (mkBuf 256) 0 88))
              (crcBytes 0 (seg (mkBuf 256) 88 88)) (crcBytes 0 (seg (mkBuf 256) 176 80)) ∧
        seg (mkBuf 256) 0 88 ++ seg (mkBuf 256) 88 88 ++ seg (mkBuf 256) 176 80
          = mkBuf 256) :=
  ⟨by decide, (claimC9_amended_contiguous_stripes (mkBuf 256) 5).1 (by decide)⟩

set_option maxRecDepth 200000 in
/-- Claim C1 fails on the code (evaluation at the failing input): with
clmul, sse42 and avx512 all detected, an 8-byte-aligned 257-byte buffer
(byte i equal to i % 256) and seed 0, the dispatcher stores the complement
of the crc32c_avx512 result into the accumulator (line 510) and complements
again on return, so the one-byte residue is drained from a wrongly
complemented accumulator: the avx512 path answers 0x27910D60, while the
software oracle and the dispatcher's own scalar and sse42 paths all answer
0x8A13A1CE. -/
theorem claimC1_avx512_residue_diverges :
    aws_checksums_crc32c_hw capsAll 0 (mkBuf 257) 0 = 0x27910D60 ∧
    aws_checksums_crc32c_sw (mkBuf 257) 0 = 0x8A13A1CE ∧
    aws_checksums_crc32c_hw capsNone 0 (mkBuf 257) 0 = 0x8A13A1CE ∧
    aws_checksums_crc32c_hw capsSse 0 (mkBuf 257) 0 = 0x8A13A1CE ∧
    aws_checksums_crc32c_hw capsAll 0 (mkBuf 257) 0
      ≠ aws_checksums_crc32c_sw (mkBuf 257) 0 := by
  have h1 : aws_checksums_crc32c_hw capsAll 0 (mkBuf 257) 0 = 0x27910D60 := by decide
  have hsw : aws_checksums_crc32c_sw (mkBuf 257) 0 = 0x8A13A1CE := by
    show compl32 (crcBytes (compl32 0) (mkBuf 257)) = 0x8A13A1CE
    rw [← crcBytesF_eq]
    decide
  exact ⟨h1, hsw, by decide, by decide, by rw [h1, hsw]; decide⟩

set_option maxRecDepth 200000 in
/-- Claim C2 fails on the code (evaluation at the failing input): with all
capabilities detected, splitting the same 257-byte aligned buffer at n = 1
and chaining — crc of the first byte used as the seed for the remaining 256
bytes at address alignment 1 — gives 0x8A13A1CE, but the single whole-buffer
call takes the avx512 branch with a one-byte residue and answers
0x27910D60, so chaining is violated. -/
theorem claimC2_chaining_broken_on_avx512_path :
    aws_checksums_crc32c_hw capsAll 1 ((mkBuf 257).drop 1)
        (aws_checksums_crc32c_hw capsAll 0 ((mkBuf 257).take 1) 0) = 0x8A13A1CE ∧
    aws_checksums_crc32c_hw capsAll 0 (mkBuf 257) 0 = 0x27910D60 ∧
    aws_checksums_crc32c_hw capsAll 1 ((mkBuf 257).drop 1)
        (aws_checksums_crc32c_hw capsAll 0 ((mkBuf 257).take 1) 0)
      ≠ aws_checksums_crc32c_hw capsAll 0 (mkBuf 257) 0 := by
  have h1 : aws_checksums_crc32c_hw capsAll 1 ((mkBuf 257).drop 1)
      (aws_checksums_crc32c_hw capsAll 0 ((mkBuf 257).take 1) 0) = 0x8A13A1CE := by decide
  have h2 : aws_checksums_crc32c_hw capsAll 0 (mkBuf 257) 0 = 0x27910D60 := by decide
  exact ⟨h1, h2, by rw [h1, h2]; decide⟩

set_option maxRecDepth 200000 in
/-- Claim C8 fails on the code (evaluation at the failing input): the same
257 logical bytes with all capabilities detected give 0x27910D60 when the
buffer is 8-byte aligned (the avx512 branch is taken, leaving a one-byte
residue) but 0x8A13A1CE when the base address is congruent to 1 mod 8 (the
7-byte alignment prologue leaves only 250 bytes, the avx512 branch is
skipped, and the correct scalar path runs), so the checksum depends on the
base alignment. -/
theorem claimC8_alignment_dependence_on_avx512_path :
    aws_checksums_crc32c_hw capsAll 0 (mkBuf 257) 0 = 0x27910D60 ∧
    aws_checksums_crc32c_hw capsAll 1 (mkBuf 257) 0 = 0x8A13A1CE ∧
    aws_checksums_crc32c_hw capsAll 0 (mkBuf 257) 0
      ≠ aws_checksums_crc32c_hw capsAll 1 (mkBuf 257) 0 := by
  have h1 : aws_checksums_crc32c_hw capsAll 0 (mkBuf 257) 0 = 0x27910D60 := by decide
  have h2 : aws_checksums_crc32c_hw capsAll 1 (mkBuf 257) 0 = 0x8A13A1CE := by decide
  exact ⟨h1, h2, by rw [h1, h2]; decide⟩
